import Mathlib

/-!
# JustRedact: a verification development of the client-side workflow controller

Shallow embedding of the stateful logic of the React front end:

* `AdminLogin.jsx` (`handleLogin`) and `AdminDashboard.jsx` (`handleLogout`) over the
  browser's `localStorage`;
* `RedactionTool.jsx` (`handleFileUpload`, `handleFieldToggle`, `handleSelectAll`,
  `handleRedact`) over the component's `useState` cells.

React state cells become fields of a record, event handlers become functions from the
record before the event to the record after it, and the observable side effects of a
handler (alerts, network requests, navigation) are returned next to the new state.
-/

namespace JustRedact

/-! ## Session gate: `localStorage`, `handleLogin`, `handleLogout` -/

/-- The browser's `localStorage`: `getItem` of a key that was never set (or was removed)
is `null`, modelled as `none`. -/
abbrev Storage := String → Option String

/-- The storage of a fresh browser profile: no key is set. -/
def Storage.empty : Storage := fun _ => none

/-- The call `localStorage.getItem(key)`. -/
def Storage.getItem (st : Storage) (key : String) : Option String := st key

/-- The call `localStorage.setItem(key, value)`. -/
def Storage.setItem (st : Storage) (key value : String) : Storage :=
  fun k => if k = key then some value else st k

/-- The call `localStorage.removeItem(key)`. -/
def Storage.removeItem (st : Storage) (key : String) : Storage :=
  fun k => if k = key then none else st k

/-- The test `localStorage.getItem("adminAuth") === "true"`, the authenticated flag as it is read by
`ProtectedRoute` (App.jsx) and by the auto-login effect of AdminLogin.jsx. -/
def authenticated (st : Storage) : Bool :=
  decide (st.getItem "adminAuth" = some "true")

/-- The test `localStorage.getItem("adminRemember") === "true"`, the remember flag as it is read by
the auto-login effect of AdminLogin.jsx. -/
def remembered (st : Storage) : Bool :=
  decide (st.getItem "adminRemember" = some "true")

/-- The `useState` cells of `AdminLogin` that `handleLogin` reads or writes. -/
structure LoginForm where
  email : String
  password : String
  rememberMe : Bool
  error : String
deriving DecidableEq, Repr

/-- What one call of `handleLogin` leaves behind: the component state, the persisted
storage and the route passed to `navigate`, if any. -/
structure LoginOutcome where
  form : LoginForm
  storage : Storage
  navigatedTo : Option String

/-- The handler `handleLogin` of AdminLogin.jsx (lines 22-34). -/
def handleLogin (form : LoginForm) (st : Storage) : LoginOutcome :=
  let cleared : LoginForm := { form with error := "" }
  if form.email = "admin@justredact.com" ∧ form.password = "admin123" then
    let st1 := st.setItem "adminAuth" "true"
    let st2 :=
      if form.rememberMe then st1.setItem "adminRemember" "true"
      else st1.removeItem "adminRemember"
    { form := cleared, storage := st2, navigatedTo := some "/admin" }
  else
    { form := { cleared with error := "Invalid credentials. Please try again." },
      storage := st, navigatedTo := none }

/-- The handler `handleLogout` of AdminDashboard.jsx (lines 24-27): the storage after the call and the
location the window is sent to. -/
def handleLogout (st : Storage) : Storage × String :=
  (st.removeItem "adminAuth", "/admin/login")

/-- One user action on the session: a submission of the login form with the given
credentials and remember-me choice, or a click on logout. -/
inductive SessionOp where
  | login (email password : String) (rememberMe : Bool)
  | logout
deriving DecidableEq, Repr

/-- Whether the action is a submission of the login form. -/
def SessionOp.isLogin : SessionOp → Bool
  | .login _ _ _ => true
  | .logout => false

/-- The persisted storage after one session action. The `error` cell the form holds when it
is submitted does not influence the storage, it is taken empty. -/
def sessionStep (st : Storage) : SessionOp → Storage
  | .login email password rememberMe =>
      (handleLogin { email := email, password := password, rememberMe := rememberMe,
                     error := "" } st).storage
  | .logout => (handleLogout st).1

/-- The persisted storage after a sequence of session actions, oldest first. -/
def sessionRun (st : Storage) (ops : List SessionOp) : Storage :=
  ops.foldl sessionStep st

/-- Whether a session action is a submission of the login form that `handleLogin` accepts
(it navigates to the admin area), and then the remember-me choice of that submission. -/
def SessionOp.successfulLogin : SessionOp → Option Bool
  | .login email password rememberMe =>
      if (handleLogin { email := email, password := password, rememberMe := rememberMe,
                        error := "" } Storage.empty).navigatedTo = some "/admin"
      then some rememberMe else none
  | .logout => none

/-- The most recent successful login of a history (oldest action first), if there is one:
its remember-me choice and the actions that came after it. -/
def sinceLastLogin : List SessionOp → Option (Bool × List SessionOp)
  | [] => none
  | op :: ops =>
      match sinceLastLogin ops with
      | some found => some found
      | none =>
          match op.successfulLogin with
          | some rememberMe => some (rememberMe, ops)
          | none => none

/-- A history in which a remembered login is followed by a logout and then by another
remembered login. -/
def reloginHistory : List SessionOp :=
  [ SessionOp.login "admin@justredact.com" "admin123" true,
    SessionOp.logout,
    SessionOp.login "admin@justredact.com" "admin123" true ]

/-! ## Field selection: `selectedFields`, `FIELD_MAP`, toggles -/

/-- A JavaScript object with string keys, as the list of its own enumerable properties in
insertion order (the order of `Object.keys`; none of the keys used here is integer-like, so
insertion order is the enumeration order). A well-formed object has no repeated key. -/
abbrev JsObject (α : Type) := List (String × α)

/-- The call `Object.keys(o)`. -/
def JsObject.keys {α : Type} (o : JsObject α) : List String := o.map Prod.fst

/-- The call `Object.values(o)`. -/
def JsObject.values {α : Type} (o : JsObject α) : List α := o.map Prod.snd

/-- Property read `o[k]`; `undefined` is `none`. -/
def JsObject.get {α : Type} : JsObject α → String → Option α
  | [], _ => none
  | (k', v) :: rest, k => if k' = k then some v else JsObject.get rest k

/-- Property write `o[k] = v`: an existing property keeps its position, a new one is
appended. -/
def JsObject.set {α : Type} : JsObject α → String → α → JsObject α
  | [], k, v => [(k, v)]
  | (k', v') :: rest, k, v =>
      if k' = k then (k', v) :: rest else (k', v') :: JsObject.set rest k v

/-- JavaScript truthiness of a value that is a boolean or `undefined`. -/
def truthy : Option Bool → Bool
  | some b => b
  | none => false

/-- The constant `FIELD_MAP` of RedactionTool.jsx (lines 9-18). -/
def FIELD_MAP : JsObject String :=
  [ ("name", "PERSON"),
    ("phone", "PHONE"),
    ("dob", "DATE"),
    ("address", "ADDRESS"),
    ("nric", "NRIC/FIN"),
    ("mcr", "MCR no."),
    ("email", "EMAIL"),
    ("id_number", "ID_NUMBER") ]

/-- The initial value of the `selectedFields` cell (lines 26-35). -/
def initialSelectedFields : JsObject Bool :=
  [ ("name", false),
    ("phone", false),
    ("dob", false),
    ("address", false),
    ("nric", false),
    ("mcr", false),
    ("email", false),
    ("id_number", false) ]

/-- The eight fixed keys of the field selection, in the order of the initial object. -/
def fieldKeys : List String :=
  ["name", "phone", "dob", "address", "nric", "mcr", "email", "id_number"]

/-- The fixed enumeration of category identifiers the redaction endpoint accepts. -/
def categoryEnumeration : List String :=
  ["PERSON", "PHONE", "DATE", "ADDRESS", "NRIC/FIN", "MCR no.", "EMAIL", "ID_NUMBER"]

/-- The field selection in which every one of the eight keys has the given flag. -/
def uniformSelection (b : Bool) : JsObject Bool := fieldKeys.map (fun k => (k, b))

/-- The handler `handleFieldToggle` (lines 53-55): the updater `(prev) => ({ ...prev, [key]: !prev[key] })`
applied to the previous selection. -/
def handleFieldToggle (key : String) (prev : JsObject Bool) : JsObject Bool :=
  JsObject.set prev key (!truthy (JsObject.get prev key))

/-- The handler `handleSelectAll` (lines 57-64): the value passed to `setSelectedFields`. -/
def handleSelectAll (selectedFields : JsObject Bool) : JsObject Bool :=
  let allChecked := (JsObject.values selectedFields).all (fun b => b)
  (JsObject.keys selectedFields).foldl
    (fun updated k => JsObject.set updated k (!allChecked)) []

/-- The active-category list `mapped` of `handleRedact` (lines 72-74): the keys whose flag
is truthy, each sent through `FIELD_MAP` (`undefined`, here `none`, for a key the map
lacks). -/
def mapped (selectedFields : JsObject Bool) : List (Option String) :=
  ((JsObject.keys selectedFields).filter
      (fun f => truthy (JsObject.get selectedFields f))).map
    (fun f => JsObject.get FIELD_MAP f)

/-! ## Document lifecycle: `handleFileUpload`, `handleRedact` -/

/-- A `File` object picked in the file input. `handle` stands for the identity of the
JavaScript object: two uploads of a file with the same name and content are still two
objects. -/
structure File where
  handle : Nat
  name : String
  bytes : List Nat
deriving DecidableEq, Repr

/-- A `Blob` read from the body of a response. -/
structure Blob where
  bytes : List Nat
deriving DecidableEq, Repr

/-- The values the cells `previewUrl` and `redactedUrl` hold: the empty string, or the
string returned by `URL.createObjectURL` for a file or for a blob. An object URL is a
fresh opaque handle of the object it was created for, so it is modelled by that object;
the empty string is the only falsy value. -/
inductive Url where
  | empty
  | ofFile (f : File)
  | ofBlob (b : Blob)
deriving DecidableEq, Repr

/-- The `useState` cells of `RedactionTool` (lines 21-35). -/
structure ToolState where
  file : Option File
  previewUrl : Url
  redactedUrl : Url
  showRedacted : Bool
  selectedFields : JsObject Bool
deriving DecidableEq, Repr

/-- The state of a freshly mounted `RedactionTool`. -/
def ToolState.initial : ToolState :=
  { file := none, previewUrl := Url.empty, redactedUrl := Url.empty, showRedacted := false,
    selectedFields := initialSelectedFields }

/-- The handler `handleFileUpload` (lines 40-48); `uploaded` is `e.target.files[0]`, `none` when the
file dialog was closed without a choice. -/
def handleFileUpload (uploaded : Option File) (s : ToolState) : ToolState :=
  match uploaded with
  | some f =>
      { s with file := some f, previewUrl := Url.ofFile f, redactedUrl := Url.empty,
               showRedacted := false }
  | none => s

/-- The multipart request `handleRedact` posts to `http://127.0.0.1:5000/redact`: the field
`file` and the field `categories`, the latter kept as the list that is serialised. -/
structure RedactRequest where
  file : File
  categories : List (Option String)
deriving DecidableEq, Repr

/-- How the awaited part of `handleRedact` settles: `fetch` rejects (network failure), or it
resolves with a response whose `ok` flag is given and whose `blob()` resolves with
`some` blob or rejects (`none`). -/
inductive FetchResult where
  | failed
  | response (ok : Bool) (body : Option Blob)
deriving DecidableEq, Repr

/-- What a handler run leaves behind: the component state, the messages shown with `alert`
and the requests handed to `fetch`, both oldest first. -/
structure HandlerOutcome where
  state : ToolState
  alerts : List String
  requests : List RedactRequest
deriving DecidableEq, Repr

/-- The synchronous part of `handleRedact` (lines 69-87), up to the `fetch` call. -/
def handleRedactStart (s : ToolState) : HandlerOutcome :=
  match s.file with
  | none => { state := s, alerts := ["Upload a file first."], requests := [] }
  | some file =>
      let m := mapped s.selectedFields
      if m.length = 0 then
        { state := s, alerts := ["Select at least one field."], requests := [] }
      else
        { state := s, alerts := [], requests := [{ file := file, categories := m }] }

/-- The continuation of `handleRedact` (lines 89-101), run when the awaited `fetch` has
settled with `res`, on the component state `s` of that moment. -/
def handleRedactResume (s : ToolState) (res : FetchResult) : HandlerOutcome :=
  match res with
  | FetchResult.response true (some blob) =>
      { state := { s with redactedUrl := Url.ofBlob blob, showRedacted := true },
        alerts := ["✔ Redaction completed!"], requests := [] }
  | _ => { state := s, alerts := ["Redaction failed. Check backend logs."], requests := [] }

/-- One uninterrupted run of `handleRedact` (lines 69-102): `service` tells how the fetch of
a request settles, and no other handler runs while the call is awaited. -/
def handleRedact (s : ToolState) (service : RedactRequest → FetchResult) : HandlerOutcome :=
  let started := handleRedactStart s
  match started.requests with
  | [] => started
  | req :: _ =>
      let resumed := handleRedactResume started.state (service req)
      { state := resumed.state, alerts := started.alerts ++ resumed.alerts,
        requests := started.requests ++ resumed.requests }

/-- The blob of a settled fetch that `handleRedact` treats as a success. -/
def FetchResult.success : FetchResult → Option Blob
  | FetchResult.response true (some blob) => some blob
  | _ => none

/-! ## The tool with redaction calls in flight -/

/-- The component together with the `fetch` calls that have not settled yet. `origin` is a
history variable, not program state: the request whose successful response was the last
one to be handled since the last upload, with the body of that response, if any. -/
structure Sys where
  ui : ToolState
  inFlight : List RedactRequest
  origin : Option (RedactRequest × Blob)
deriving DecidableEq, Repr

/-- The freshly mounted tool: nothing in flight. -/
def Sys.initial : Sys := { ui := ToolState.initial, inFlight := [], origin := none }

/-- What can happen to the mounted tool: the user picks a file, clicks a field checkbox,
clicks "Select All", clicks "Redact", clicks the preview switch, or the fetch of an earlier
request settles. -/
inductive Event where
  | upload (f : File)
  | fieldToggle (key : String)
  | selectAll
  | redact
  | toggleDisplay
  | response (req : RedactRequest) (res : FetchResult)
deriving DecidableEq, Repr

/-- One event. Controls that are not rendered cannot be clicked: a checkbox exists only for
the keys of `selectedFields` (line 184), the preview switch only while `redactedUrl` is
truthy (line 203); a response can only arrive for a request in flight. Such events leave
the state as it is. -/
def step (s : Sys) : Event → Sys
  | Event.upload f => { s with ui := handleFileUpload (some f) s.ui, origin := none }
  | Event.fieldToggle key =>
      if key ∈ JsObject.keys s.ui.selectedFields then
        { s with ui := { s.ui with selectedFields := handleFieldToggle key s.ui.selectedFields } }
      else s
  | Event.selectAll =>
      { s with ui := { s.ui with selectedFields := handleSelectAll s.ui.selectedFields } }
  | Event.redact =>
      let started := handleRedactStart s.ui
      { s with ui := started.state, inFlight := s.inFlight ++ started.requests }
  | Event.toggleDisplay =>
      if s.ui.redactedUrl = Url.empty then s
      else { s with ui := { s.ui with showRedacted := !s.ui.showRedacted } }
  | Event.response req res =>
      if req ∈ s.inFlight then
        { ui := (handleRedactResume s.ui res).state,
          inFlight := s.inFlight.erase req,
          origin :=
            match FetchResult.success res with
            | some blob => some (req, blob)
            | none => s.origin }
      else s

/-- The state after a sequence of events, oldest first. -/
def run (s : Sys) (evs : List Event) : Sys := evs.foldl step s

/-- The files uploaded by a sequence of events. -/
def uploadedFiles : List Event → List File
  | [] => []
  | Event.upload f :: evs => f :: uploadedFiles evs
  | _ :: evs => uploadedFiles evs

/-- The document invariant: a non-empty redacted-result reference is the object URL of the
body of a successful response to a request made for the current document. -/
def DocumentInvariant (s : Sys) : Prop :=
  s.ui.redactedUrl ≠ Url.empty →
    ∃ r blob, s.origin = some (r, blob) ∧ s.ui.redactedUrl = Url.ofBlob blob ∧
      s.ui.file = some r.file

/-- Whether an event is a successful response to a request in flight that arrives after the
document it was requested for has been replaced. -/
def staleResponse (s : Sys) : Event → Bool
  | Event.response req res =>
      decide (req ∈ s.inFlight) && (FetchResult.success res).isSome &&
        decide (s.ui.file ≠ some req.file)
  | _ => false

/-- Whether no response of the sequence arrives stale, starting from `s`. -/
def noStaleResponse : Sys → List Event → Bool
  | _, [] => true
  | s, e :: evs => !staleResponse s e && noStaleResponse (step s e) evs

/-- Provenance of what the state holds, relative to the files `U` uploaded so far: the
redacted-result reference is empty exactly when no successful response was handled since
the last upload, and otherwise it is the object URL of the body of the recorded response;
the current file, the file of every request in flight and the file of the recorded request
were all uploaded, requests carrying a non-empty category list. -/
structure Provenance (s : Sys) (U : List File) : Prop where
  empty_iff : s.ui.redactedUrl = Url.empty ↔ s.origin = none
  holds : ∀ r blob, s.origin = some (r, blob) → s.ui.redactedUrl = Url.ofBlob blob
  current : ∀ f, s.ui.file = some f → f ∈ U
  pending : ∀ r ∈ s.inFlight, r.file ∈ U ∧ r.categories ≠ []
  installed : ∀ r blob, s.origin = some (r, blob) → r.file ∈ U ∧ r.categories ≠ []

/-- The recorded response, if any, answers a request made for the current document. -/
def Fresh (s : Sys) : Prop := ∀ r blob, s.origin = some (r, blob) → s.ui.file = some r.file

/-- Example documents and an example response body for the scenarios below. -/
def exampleFile1 : File := { handle := 1, name := "contract.pdf", bytes := [37, 80, 68, 70] }

/-- A second example document. -/
def exampleFile2 : File := { handle := 2, name := "invoice.pdf", bytes := [37, 80, 68, 71] }

/-- An example response body. -/
def exampleBlob : Blob := { bytes := [82] }

/-- The scenario of a stale response: upload the first document, check "name", click
"Redact", upload the second document, and only then the first request is answered with
success. -/
def staleTrace : List Event :=
  [ Event.upload exampleFile1,
    Event.fieldToggle "name",
    Event.redact,
    Event.upload exampleFile2,
    Event.response { file := exampleFile1, categories := [some "PERSON"] }
      (FetchResult.response true (some exampleBlob)) ]

/-- The scenario of a timely response: upload the first document, check "name", click
"Redact", and the request is answered with success. -/
def timelyTrace : List Event :=
  [ Event.upload exampleFile1,
    Event.fieldToggle "name",
    Event.redact,
    Event.response { file := exampleFile1, categories := [some "PERSON"] }
      (FetchResult.response true (some exampleBlob)) ]

/-! ## Export: `handleExport` -/

/-- The anchor element `handleExport` creates and clicks: its `href` and its `download`
attribute, the name the browser gives the saved file. -/
structure DownloadLink where
  href : Url
  download : String
deriving DecidableEq, Repr

/-- How a run of `handleExport` ends: it returns at once, or reading `file.name` throws
because `file` is `null`, or the link is clicked. -/
inductive ExportOutcome where
  | nothing
  | typeError
  | clicked (link : DownloadLink)
deriving DecidableEq, Repr

/-- The handler `handleExport` of RedactionTool.jsx (lines 107-113). -/
def handleExport (s : ToolState) : ExportOutcome :=
  if s.redactedUrl = Url.empty then ExportOutcome.nothing
  else
    match s.file with
    | none => ExportOutcome.typeError
    | some file =>
        ExportOutcome.clicked { href := s.redactedUrl, download := "REDACTED_" ++ file.name }

/-- The scenario of an export: upload "contract.pdf", check "name" and "email", click
"Redact", and the request is answered with success. -/
def contractTrace : List Event :=
  [ Event.upload exampleFile1,
    Event.fieldToggle "name",
    Event.fieldToggle "email",
    Event.redact,
    Event.response { file := exampleFile1, categories := [some "PERSON", some "EMAIL"] }
      (FetchResult.response true (some exampleBlob)) ]

/-- While a request is in flight or a redacted result is held, a document is loaded. -/
def Loaded (s : Sys) : Prop :=
  (s.inFlight ≠ [] → s.ui.file ≠ none) ∧ (s.ui.redactedUrl ≠ Url.empty → s.ui.file ≠ none)

/-! ## Logs view: `verifyLog` -/

/-- A log entry as the logs endpoint and the fallback dataset of LogsViewer.jsx give it:
`{id, user, doc, fields, date, status}`, with a numeric `id`. -/
structure LogEntry where
  id : Nat
  user : String
  doc : String
  fields : List String
  date : String
  status : String
deriving DecidableEq, Repr

/-- The dataset `setLogs` receives when loading the logs fails (lines 14-31). -/
def degradedLogs : List LogEntry :=
  [ { id := 1, user := "Hridaya", doc := "CaseStudy.pdf", fields := ["Name", "Phone"],
      date := "2025-11-10", status := "Pending" },
    { id := 2, user := "Anita", doc := "Report.docx", fields := ["Address"],
      date := "2025-11-09", status := "Verified" } ]

/-- What a call of `verifyLog` leaves behind when it returns: the value passed to `setLogs`
and the ids posted to `/api/admin/logs/<id>/verify`. -/
structure VerifyOutcome where
  logs : List LogEntry
  posts : List Nat
deriving DecidableEq, Repr

/-- The handler `verifyLog` of LogsViewer.jsx (lines 36-41), up to its return. -/
def verifyLog (logs : List LogEntry) (id : Nat) : VerifyOutcome :=
  { logs := logs.map (fun l => if l.id = id then { l with status := "Verified" } else l),
    posts := [id] }

/-- The `catch` callback of the POST issued by `verifyLog` (line 40), run on the logs of the
moment the POST is rejected: the logs after it and the message shown with `alert`. -/
def verifyLogRejected (logs : List LogEntry) : List LogEntry × List String :=
  (logs, ["Verify failed (mock only)."])

/-! ## Session gate: theorems -/

theorem authenticated_setItem_auth (st : Storage) :
    authenticated (st.setItem "adminAuth" "true") = true := by
  simp [authenticated, Storage.getItem, Storage.setItem]

theorem authenticated_setItem_remember (st : Storage) (v : String) :
    authenticated (st.setItem "adminRemember" v) = authenticated st := by
  simp [authenticated, Storage.getItem, Storage.setItem]

theorem authenticated_removeItem_remember (st : Storage) :
    authenticated (st.removeItem "adminRemember") = authenticated st := by
  simp [authenticated, Storage.getItem, Storage.removeItem]

theorem authenticated_removeItem_auth (st : Storage) :
    authenticated (st.removeItem "adminAuth") = false := by
  simp [authenticated, Storage.getItem, Storage.removeItem]

theorem remembered_removeItem_auth (st : Storage) :
    remembered (st.removeItem "adminAuth") = remembered st := by
  simp [remembered, Storage.getItem, Storage.removeItem]

/-- A submission of the login form keeps "remembered implies authenticated". -/
theorem login_preserves_gate (st : Storage) (form : LoginForm)
    (h : remembered st = true → authenticated st = true) :
    remembered (handleLogin form st).storage = true →
      authenticated (handleLogin form st).storage = true := by
  unfold handleLogin
  by_cases hc : form.email = "admin@justredact.com" ∧ form.password = "admin123"
  · intro _
    cases hr : form.rememberMe <;>
      simp [hc, hr, authenticated_setItem_auth, authenticated_setItem_remember,
        authenticated_removeItem_remember]
  · simpa [hc] using h

/-- Login-only runs keep "remembered implies authenticated" from any storage that has it. -/
theorem logins_preserve_gate (ops : List SessionOp) :
    ∀ st : Storage, ops.all SessionOp.isLogin = true →
      (remembered st = true → authenticated st = true) →
      remembered (sessionRun st ops) = true → authenticated (sessionRun st ops) = true := by
  induction ops with
  | nil => intro st _ h; simpa [sessionRun] using h
  | cons op ops ih =>
      intro st hall h
      simp only [List.all_cons, Bool.and_eq_true] at hall
      cases op with
      | logout => simp [SessionOp.isLogin] at hall
      | login email password rememberMe =>
          have := ih (sessionStep st (SessionOp.login email password rememberMe)) hall.2
            (login_preserves_gate st _ h)
          simpa [sessionRun] using this

/-- C1 (as stated, refuted): after a remembered login followed by a logout the persisted
state has the remember flag true and the authenticated flag false. -/
theorem session_invariant_broken_by_logout :
    remembered (sessionRun Storage.empty
        [SessionOp.login "admin@justredact.com" "admin123" true, SessionOp.logout]) = true ∧
    authenticated (sessionRun Storage.empty
        [SessionOp.login "admin@justredact.com" "admin123" true, SessionOp.logout]) = false := by
  constructor
  · simp [sessionRun, sessionStep, handleLogin, handleLogout, remembered, Storage.getItem,
      Storage.setItem, Storage.removeItem]
  · simp [sessionRun, sessionStep, handleLogin, handleLogout, authenticated, Storage.getItem,
      Storage.setItem, Storage.removeItem]

/-- Histories of login submissions only: the remember flag is never true while the
authenticated flag is false; a logout clears the authenticated flag and leaves the
remember flag as it was. -/
theorem session_invariant_of_logins (ops : List SessionOp)
    (h : ops.all SessionOp.isLogin = true) :
    (remembered (sessionRun Storage.empty ops) = true →
      authenticated (sessionRun Storage.empty ops) = true) ∧
    ∀ st : Storage, authenticated (handleLogout st).1 = false ∧
      remembered (handleLogout st).1 = remembered st := by
  refine ⟨logins_preserve_gate ops Storage.empty h ?_, fun st => ?_⟩
  · simp [remembered, Storage.empty, Storage.getItem]
  · exact ⟨authenticated_removeItem_auth st, remembered_removeItem_auth st⟩

/-- Two submissions of the login form, the first with the fixed credentials and
remember-me, the second with other credentials. -/
theorem session_invariant_of_logins_witness :
    [SessionOp.login "admin@justredact.com" "admin123" true,
      SessionOp.login "guest@justredact.com" "guest" false].all SessionOp.isLogin = true ∧
    ((remembered (sessionRun Storage.empty
        [SessionOp.login "admin@justredact.com" "admin123" true,
          SessionOp.login "guest@justredact.com" "guest" false]) = true →
      authenticated (sessionRun Storage.empty
        [SessionOp.login "admin@justredact.com" "admin123" true,
          SessionOp.login "guest@justredact.com" "guest" false]) = true) ∧
    ∀ st : Storage, authenticated (handleLogout st).1 = false ∧
      remembered (handleLogout st).1 = remembered st) :=
  ⟨by decide, session_invariant_of_logins _ (by decide)⟩

theorem remembered_setItem_auth (st : Storage) (v : String) :
    remembered (st.setItem "adminAuth" v) = remembered st := by
  simp [remembered, Storage.getItem, Storage.setItem]

theorem remembered_setItem_remember (st : Storage) :
    remembered (st.setItem "adminRemember" "true") = true := by
  simp [remembered, Storage.getItem, Storage.setItem]

theorem remembered_removeItem_remember (st : Storage) :
    remembered (st.removeItem "adminRemember") = false := by
  simp [remembered, Storage.getItem, Storage.removeItem]

/-- A successful login sets the authenticated flag and sets the remember flag to the
remember-me choice. -/
theorem sessionStep_of_successful (st : Storage) (op : SessionOp) (r : Bool)
    (h : op.successfulLogin = some r) :
    remembered (sessionStep st op) = r ∧ authenticated (sessionStep st op) = true := by
  cases op with
  | logout => simp [SessionOp.successfulLogin] at h
  | login email password rememberMe =>
      by_cases hc : email = "admin@justredact.com" ∧ password = "admin123"
      · have hr : rememberMe = r := by
          simpa [SessionOp.successfulLogin, handleLogin, hc] using h
        subst hr
        cases rememberMe <;>
          simp [sessionStep, handleLogin, hc, authenticated_setItem_auth,
            authenticated_setItem_remember, authenticated_removeItem_remember,
            remembered_setItem_remember, remembered_removeItem_remember]
      · simp [SessionOp.successfulLogin, handleLogin, hc] at h

/-- A rejected login leaves the storage as it is. -/
theorem sessionStep_of_rejected (st : Storage) (email password : String) (rememberMe : Bool)
    (h : (SessionOp.login email password rememberMe).successfulLogin = none) :
    sessionStep st (SessionOp.login email password rememberMe) = st := by
  by_cases hc : email = "admin@justredact.com" ∧ password = "admin123"
  · simp [SessionOp.successfulLogin, handleLogin, hc] at h
  · simp [sessionStep, handleLogin, hc]

/-- The two flags after a history, read off the most recent successful login. -/
theorem flags_after_history (ops : List SessionOp) :
    ∀ st : Storage,
      (sinceLastLogin ops = none →
        remembered (sessionRun st ops) = remembered st ∧
        authenticated (sessionRun st ops)
          = (if SessionOp.logout ∈ ops then false else authenticated st)) ∧
      (∀ r post, sinceLastLogin ops = some (r, post) →
        remembered (sessionRun st ops) = r ∧
        authenticated (sessionRun st ops) = decide (SessionOp.logout ∉ post)) := by
  induction ops with
  | nil =>
      intro st
      exact ⟨fun _ => by simp [sessionRun], fun r post h => by simp [sinceLastLogin] at h⟩
  | cons op ops ih =>
      intro st
      have hrun : sessionRun st (op :: ops) = sessionRun (sessionStep st op) ops := rfl
      obtain ⟨ihnone, ihsome⟩ := ih (sessionStep st op)
      cases hrest : sinceLastLogin ops with
      | some found =>
          obtain ⟨r', post'⟩ := found
          refine ⟨fun h => by simp [sinceLastLogin, hrest] at h, fun r post h => ?_⟩
          have hfound : r' = r ∧ post' = post := by
            simpa [sinceLastLogin, hrest] using h
          rw [hrun, ← hfound.1, ← hfound.2]
          exact ihsome r' post' hrest
      | none =>
          obtain ⟨hrem, hauth⟩ := ihnone hrest
          cases hop : op.successfulLogin with
          | some r' =>
              obtain ⟨hr1, hr2⟩ := sessionStep_of_successful st op r' hop
              refine ⟨fun h => by simp [sinceLastLogin, hrest, hop] at h, fun r post h => ?_⟩
              have hfound : r' = r ∧ ops = post := by
                simpa [sinceLastLogin, hrest, hop] using h
              rw [hrun, hrem, hauth, hr1, hr2, ← hfound.1, ← hfound.2]
              by_cases hl : SessionOp.logout ∈ ops <;> simp [hl]
          | none =>
              refine ⟨fun _ => ?_, fun r post h => by simp [sinceLastLogin, hrest, hop] at h⟩
              rw [hrun, hrem, hauth]
              cases op with
              | logout =>
                  simp [sessionStep, handleLogout, remembered_removeItem_auth,
                    authenticated_removeItem_auth]
              | login email password rememberMe =>
                  rw [sessionStep_of_rejected st email password rememberMe hop]
                  simp

/-- C1 (amended): in every persisted state reachable from the empty store by any sequence of
login and logout operations, with any credentials and any remember-me choice, the remember
flag is true while the authenticated flag is false exactly when the most recent successful
login chose remember-me and a logout has happened since then; in every other reachable state
the remember flag is never true while the authenticated flag is false. A logout clears the
authenticated flag and leaves the remember flag as it was. -/
theorem session_invariant_fails_only_after_logout (ops : List SessionOp) :
    ((remembered (sessionRun Storage.empty ops) = true ∧
        authenticated (sessionRun Storage.empty ops) = false) ↔
      ∃ post, sinceLastLogin ops = some (true, post) ∧ SessionOp.logout ∈ post) ∧
    ((¬ ∃ post, sinceLastLogin ops = some (true, post) ∧ SessionOp.logout ∈ post) →
      remembered (sessionRun Storage.empty ops) = true →
      authenticated (sessionRun Storage.empty ops) = true) ∧
    ∀ st : Storage, authenticated (handleLogout st).1 = false ∧
      remembered (handleLogout st).1 = remembered st := by
  obtain ⟨hnone, hsome⟩ := flags_after_history ops Storage.empty
  have hiff : (remembered (sessionRun Storage.empty ops) = true ∧
        authenticated (sessionRun Storage.empty ops) = false) ↔
      ∃ post, sinceLastLogin ops = some (true, post) ∧ SessionOp.logout ∈ post := by
    cases hs : sinceLastLogin ops with
    | none =>
        have hrem := (hnone hs).1
        have h0 : remembered Storage.empty = false := by
          simp [remembered, Storage.empty, Storage.getItem]
        constructor
        · intro h
          rw [hrem, h0] at h
          exact absurd h.1 (by simp)
        · rintro ⟨post, hp, _⟩
          simp at hp
    | some found =>
        obtain ⟨r, post⟩ := found
        obtain ⟨hrem, hauth⟩ := hsome r post hs
        constructor
        · intro h
          rw [hrem, hauth] at h
          refine ⟨post, by rw [h.1], ?_⟩
          simpa using h.2
        · rintro ⟨post', hp, hl⟩
          have hfound : r = true ∧ post = post' := by simpa using hp
          rw [hrem, hauth, hfound.1, hfound.2]
          simp [hl]
  refine ⟨hiff, fun hno hrem => ?_, fun st =>
    ⟨authenticated_removeItem_auth st, remembered_removeItem_auth st⟩⟩
  cases ha : authenticated (sessionRun Storage.empty ops) with
  | true => rfl
  | false => exact absurd (hiff.1 ⟨hrem, ha⟩) hno

/-- C1 (amended), at a remembered login, a logout and a second remembered login: no logout
follows the most recent successful login, the remember flag is true and so is the
authenticated flag. -/
theorem session_invariant_fails_only_after_logout_witness :
    (¬ ∃ post, sinceLastLogin reloginHistory = some (true, post) ∧ SessionOp.logout ∈ post) ∧
    remembered (sessionRun Storage.empty reloginHistory) = true ∧
    authenticated (sessionRun Storage.empty reloginHistory) = true :=
  have hno : ¬ ∃ post, sinceLastLogin reloginHistory = some (true, post) ∧
      SessionOp.logout ∈ post := by
    simp [reloginHistory, sinceLastLogin, SessionOp.successfulLogin, handleLogin]
  have hrem : remembered (sessionRun Storage.empty reloginHistory) = true := by
    simp [reloginHistory, sessionRun, sessionStep, handleLogin, handleLogout, remembered,
      Storage.getItem, Storage.setItem, Storage.removeItem]
  ⟨hno, hrem, (session_invariant_fails_only_after_logout reloginHistory).2.1 hno hrem⟩

/-- C10: whatever the persisted store and the form, `handleLogin` navigates to the admin
area exactly when the pair is ("admin@justredact.com", "admin123"), and then the
authenticated flag is true; for every other pair it sets the invalid-credentials error,
does not navigate and returns the persisted store as it was, so the authenticated flag
keeps its value (false stays false). -/
theorem login_exactly_fixed_credentials (st : Storage) (form : LoginForm) :
    ((handleLogin form st).navigatedTo = some "/admin" ↔
      (form.email = "admin@justredact.com" ∧ form.password = "admin123")) ∧
    ((form.email = "admin@justredact.com" ∧ form.password = "admin123") →
      authenticated (handleLogin form st).storage = true ∧
      (handleLogin form st).form.error = "") ∧
    (¬ (form.email = "admin@justredact.com" ∧ form.password = "admin123") →
      (handleLogin form st).form.error = "Invalid credentials. Please try again." ∧
      (handleLogin form st).navigatedTo = none ∧
      (handleLogin form st).storage = st ∧
      authenticated (handleLogin form st).storage = authenticated st) := by
  by_cases hc : form.email = "admin@justredact.com" ∧ form.password = "admin123"
  · refine ⟨by simp [handleLogin, hc], fun _ => ?_, fun h => absurd hc h⟩
    cases hr : form.rememberMe <;>
      simp [handleLogin, hc, hr, authenticated_setItem_auth, authenticated_setItem_remember,
        authenticated_removeItem_remember]
  · refine ⟨by simp [handleLogin, hc], fun h => absurd h hc, fun _ => ?_⟩
    simp [handleLogin, hc]

/-! ## Field selection: lemmas on JavaScript objects -/

theorem JsObject.keys_set_of_mem {α : Type} (o : JsObject α) (k : String) (v : α)
    (h : k ∈ JsObject.keys o) : JsObject.keys (JsObject.set o k v) = JsObject.keys o := by
  induction o with
  | nil => simp [JsObject.keys] at h
  | cons p rest ih =>
      obtain ⟨k', v'⟩ := p
      by_cases hk : k' = k
      · simp [JsObject.set, JsObject.keys, hk]
      · have hmem : k ∈ JsObject.keys rest := by
          simp only [JsObject.keys, List.map_cons, List.mem_cons] at h
          rcases h with h | h
          · exact absurd h.symm hk
          · exact h
        have := ih hmem
        simp only [JsObject.keys] at this
        simp [JsObject.set, JsObject.keys, hk, this]

theorem JsObject.get_set_self {α : Type} (o : JsObject α) (k : String) (v : α) :
    JsObject.get (JsObject.set o k v) k = some v := by
  induction o with
  | nil => simp [JsObject.set, JsObject.get]
  | cons p rest ih =>
      obtain ⟨k', v'⟩ := p
      by_cases hk : k' = k
      · simp [JsObject.set, JsObject.get, hk]
      · simp [JsObject.set, JsObject.get, hk, ih]

theorem JsObject.get_set_other {α : Type} (o : JsObject α) (k k' : String) (v : α)
    (h : k' ≠ k) : JsObject.get (JsObject.set o k v) k' = JsObject.get o k' := by
  induction o with
  | nil => simp [JsObject.set, JsObject.get, h.symm]
  | cons p rest ih =>
      obtain ⟨k₀, v₀⟩ := p
      by_cases hk : k₀ = k
      · subst hk
        simp [JsObject.set, JsObject.get, h.symm]
      · by_cases hk' : k₀ = k'
        · subst hk'
          simp [JsObject.set, JsObject.get, hk]
        · simp [JsObject.set, JsObject.get, hk, hk', ih]

theorem JsObject.get_isSome_of_mem {α : Type} (o : JsObject α) (k : String)
    (h : k ∈ JsObject.keys o) : ∃ v, JsObject.get o k = some v := by
  induction o with
  | nil => simp [JsObject.keys] at h
  | cons p rest ih =>
      obtain ⟨k', v'⟩ := p
      by_cases hk : k' = k
      · exact ⟨v', by simp [JsObject.get, hk]⟩
      · have hmem : k ∈ JsObject.keys rest := by
          simp only [JsObject.keys, List.map_cons, List.mem_cons] at h
          rcases h with h | h
          · exact absurd h.symm hk
          · exact h
        obtain ⟨v, hv⟩ := ih hmem
        exact ⟨v, by simp [JsObject.get, hk, hv]⟩

theorem JsObject.set_of_not_mem {α : Type} (o : JsObject α) (k : String) (v : α)
    (h : k ∉ JsObject.keys o) : JsObject.set o k v = o ++ [(k, v)] := by
  induction o with
  | nil => simp [JsObject.set]
  | cons p rest ih =>
      obtain ⟨k', v'⟩ := p
      simp only [JsObject.keys, List.map_cons, List.mem_cons, not_or] at h
      have hk : ¬ k' = k := fun e => h.1 e.symm
      have := ih (by simpa [JsObject.keys] using h.2)
      simp [JsObject.set, hk, this]

/-- Writing one value under fresh, pairwise different keys appends the properties in
order. -/
theorem JsObject.foldl_set_fresh {α : Type} (v : α) (ks : List String) :
    ∀ acc : JsObject α, ks.Nodup → (∀ k ∈ ks, k ∉ JsObject.keys acc) →
      ks.foldl (fun updated k => JsObject.set updated k v) acc
        = acc ++ ks.map (fun k => (k, v)) := by
  induction ks with
  | nil => intro acc _ _; simp
  | cons k ks ih =>
      intro acc hnd hfresh
      have hk : k ∉ JsObject.keys acc := hfresh k (List.mem_cons_self k ks)
      rw [List.nodup_cons] at hnd
      rw [List.foldl_cons, JsObject.set_of_not_mem acc k v hk, ih _ hnd.2]
      · simp
      · intro k' hk' hmem
        simp only [JsObject.keys, List.map_append, List.map_cons, List.map_nil,
          List.mem_append, List.mem_singleton] at hmem
        rcases hmem with hmem | hmem
        · exact hfresh k' (List.mem_cons_of_mem k hk') (by simpa [JsObject.keys] using hmem)
        · exact hnd.1 (hmem ▸ hk')

/-- On an object without repeated keys, "Select All" writes the negated all-checked
predicate under every key, in the order of the keys. -/
theorem handleSelectAll_eq_map (s : JsObject Bool) (h : (JsObject.keys s).Nodup) :
    handleSelectAll s
      = (JsObject.keys s).map
          (fun k => (k, !(JsObject.values s).all (fun b => b))) := by
  unfold handleSelectAll
  simpa using JsObject.foldl_set_fresh (!(JsObject.values s).all (fun b => b))
    (JsObject.keys s) [] h (by simp [JsObject.keys])

theorem fieldKeys_nodup : fieldKeys.Nodup := by
  simp [fieldKeys]

theorem keys_uniformSelection (b : Bool) : JsObject.keys (uniformSelection b) = fieldKeys := by
  simp [JsObject.keys, uniformSelection, Function.comp_def]

theorem values_uniformSelection (b : Bool) :
    JsObject.values (uniformSelection b) = List.replicate 8 b := by
  simp [JsObject.values, uniformSelection, fieldKeys]

theorem JsObject.get_cons_of_ne {α : Type} (k' : String) (v' : α) (rest : JsObject α)
    (k : String) (h : k' ≠ k) : JsObject.get ((k', v') :: rest) k = JsObject.get rest k := by
  simp [JsObject.get, h]

/-- On an object without repeated keys, the keys whose flag is truthy are the keys of the
properties whose value is `true`. -/
theorem filter_truthy_keys (s : JsObject Bool) (h : (JsObject.keys s).Nodup) :
    (JsObject.keys s).filter (fun f => truthy (JsObject.get s f))
      = (s.filter (fun p => p.2)).map Prod.fst := by
  induction s with
  | nil => simp [JsObject.keys]
  | cons p rest ih =>
      obtain ⟨k, v⟩ := p
      have hnd : k ∉ JsObject.keys rest ∧ (JsObject.keys rest).Nodup := by
        simpa [JsObject.keys] using h
      have htail : (JsObject.keys rest).filter
            (fun f => truthy (JsObject.get ((k, v) :: rest) f))
          = (JsObject.keys rest).filter (fun f => truthy (JsObject.get rest f)) := by
        apply List.filter_congr
        intro f hf
        have hne : k ≠ f := fun e => hnd.1 (e ▸ hf)
        rw [JsObject.get_cons_of_ne k v rest f hne]
      have hhead : truthy (JsObject.get ((k, v) :: rest) k) = v := by
        simp [JsObject.get, truthy]
      have hkeys : JsObject.keys ((k, v) :: rest) = k :: JsObject.keys rest := rfl
      rw [hkeys, List.filter_cons, hhead, htail, ih hnd.2]
      cases v <;> simp [List.filter_cons]

/-- The number of active categories is the number of `true` flags. -/
theorem mapped_length (s : JsObject Bool) (h : (JsObject.keys s).Nodup) :
    (mapped s).length = (JsObject.values s).count true := by
  unfold mapped
  rw [List.length_map, filter_truthy_keys s h, List.length_map]
  clear h
  induction s with
  | nil => simp [JsObject.values]
  | cons p rest ih =>
      obtain ⟨k, v⟩ := p
      have hv : JsObject.values ((k, v) :: rest) = v :: JsObject.values rest := rfl
      cases v <;> simp [List.filter_cons, hv, ih]

/-- Not every flag is `true` exactly when fewer flags are `true` than there are flags. -/
theorem all_false_iff_count_lt (bs : List Bool) :
    bs.all (fun b => b) = false ↔ bs.count true < bs.length := by
  induction bs with
  | nil => simp
  | cons b bs ih =>
      cases b
      · have := List.count_le_length true bs
        simp [List.count_cons]
        omega
      · simpa [List.count_cons] using ih

theorem length_values_of_keys (s : JsObject Bool) (h : JsObject.keys s = fieldKeys) :
    (JsObject.values s).length = 8 := by
  have : (JsObject.keys s).length = 8 := by rw [h]; rfl
  simpa [JsObject.keys, JsObject.values] using this

theorem uniformSelection_injective (a b : Bool) (h : uniformSelection a = uniformSelection b) :
    a = b := by
  simpa [uniformSelection, fieldKeys] using h

theorem FIELD_MAP_injOn_fieldKeys :
    ∀ a ∈ fieldKeys, ∀ b ∈ fieldKeys,
      JsObject.get FIELD_MAP a = JsObject.get FIELD_MAP b → a = b := by
  intro a ha b hb
  simp only [fieldKeys, List.mem_cons, List.mem_singleton, List.mem_nil_iff, or_false] at ha hb
  rcases ha with rfl | rfl | rfl | rfl | rfl | rfl | rfl | rfl <;>
    rcases hb with rfl | rfl | rfl | rfl | rfl | rfl | rfl | rfl <;>
    simp [FIELD_MAP, JsObject.get]

theorem FIELD_MAP_get_mem (k : String) (hk : k ∈ fieldKeys) :
    ∃ cat, JsObject.get FIELD_MAP k = some cat ∧ cat ∈ categoryEnumeration := by
  simp only [fieldKeys, List.mem_cons, List.mem_singleton, List.mem_nil_iff, or_false] at hk
  rcases hk with rfl | rfl | rfl | rfl | rfl | rfl | rfl | rfl <;>
    simp [FIELD_MAP, JsObject.get, categoryEnumeration]

theorem JsObject.get_of_truthy (s : JsObject Bool) (k : String)
    (h : truthy (JsObject.get s k) = true) : JsObject.get s k = some true := by
  cases hg : JsObject.get s k with
  | none => simp [hg, truthy] at h
  | some b => simpa [hg, truthy] using h

/-! ## Field selection: theorems -/

/-- C3: on every field selection over the eight fixed keys, `handleSelectAll` returns the
selection with the same keys in which every flag is the negation of the conjunction of all
flags of the input; so all flags of the result are equal, and from the all-false (initial)
selection one application gives all-true and a second one gives all-false again. -/
theorem selectAll_negated_conjunction (s : JsObject Bool)
    (h : JsObject.keys s = fieldKeys) :
    handleSelectAll s = uniformSelection (!(JsObject.values s).all (fun b => b)) ∧
    JsObject.keys (handleSelectAll s) = JsObject.keys s ∧
    (∀ k ∈ fieldKeys, JsObject.get (handleSelectAll s) k
        = some (!(JsObject.values s).all (fun b => b))) ∧
    (∀ a ∈ JsObject.values (handleSelectAll s), ∀ b ∈ JsObject.values (handleSelectAll s),
        a = b) ∧
    initialSelectedFields = uniformSelection false ∧
    handleSelectAll (uniformSelection false) = uniformSelection true ∧
    handleSelectAll (handleSelectAll (uniformSelection false)) = uniformSelection false := by
  have hnd : (JsObject.keys s).Nodup := h ▸ fieldKeys_nodup
  have hres : handleSelectAll s
      = uniformSelection (!(JsObject.values s).all (fun b => b)) := by
    rw [handleSelectAll_eq_map s hnd, h]; rfl
  have huni : ∀ b : Bool, handleSelectAll (uniformSelection b) = uniformSelection (!b) := by
    intro b
    rw [handleSelectAll_eq_map _ (by rw [keys_uniformSelection]; exact fieldKeys_nodup),
      keys_uniformSelection, values_uniformSelection]
    cases b <;> rfl
  refine ⟨hres, ?_, ?_, ?_, rfl, huni false, ?_⟩
  · rw [hres, keys_uniformSelection, h]
  · intro k hk
    rw [hres]
    simp only [fieldKeys, List.mem_cons, List.mem_singleton, List.mem_nil_iff, or_false] at hk
    rcases hk with rfl | rfl | rfl | rfl | rfl | rfl | rfl | rfl <;>
      simp [uniformSelection, fieldKeys, JsObject.get]
  · intro a ha b hb
    rw [hres, values_uniformSelection] at ha hb
    rw [List.eq_of_mem_replicate ha, List.eq_of_mem_replicate hb]
  · rw [huni false]; exact huni true

/-- C3, at the selection in which only "email" and "dob" are checked. -/
theorem selectAll_negated_conjunction_witness :
    JsObject.keys (handleFieldToggle "dob" (handleFieldToggle "email" initialSelectedFields))
      = fieldKeys ∧
    handleSelectAll (handleFieldToggle "dob" (handleFieldToggle "email" initialSelectedFields))
      = uniformSelection (!(JsObject.values
          (handleFieldToggle "dob" (handleFieldToggle "email" initialSelectedFields))).all
            (fun b => b)) :=
  ⟨by decide, (selectAll_negated_conjunction _ (by decide)).1⟩

/-- C4 (as stated, refuted): with only "name" checked the active-category list is not
empty, yet `handleSelectAll` yields the all-true selection. -/
theorem active_empty_iff_selectAll_true_fails :
    ¬ (mapped (handleFieldToggle "name" initialSelectedFields) = [] ↔
        handleSelectAll (handleFieldToggle "name" initialSelectedFields)
          = uniformSelection true) := by
  have h1 : mapped (handleFieldToggle "name" initialSelectedFields) = [some "PERSON"] := by
    decide
  have h2 : handleSelectAll (handleFieldToggle "name" initialSelectedFields)
      = uniformSelection true := by decide
  intro h
  have := h.2 h2
  rw [h1] at this
  exact absurd this (by simp)

/-- C4 (amended): on every field selection over the eight fixed keys, if the active-category
list is empty then `handleSelectAll` yields the all-true selection; and `handleSelectAll`
yields the all-true selection exactly when not every flag is true, that is when the
active-category list has fewer than eight entries. -/
theorem active_empty_imp_selectAll_true (s : JsObject Bool)
    (h : JsObject.keys s = fieldKeys) :
    (mapped s = [] → handleSelectAll s = uniformSelection true) ∧
    (handleSelectAll s = uniformSelection true ↔ (mapped s).length < 8) ∧
    (handleSelectAll s = uniformSelection true ↔
      (JsObject.values s).all (fun b => b) = false) := by
  have hnd : (JsObject.keys s).Nodup := h ▸ fieldKeys_nodup
  have hres : handleSelectAll s
      = uniformSelection (!(JsObject.values s).all (fun b => b)) := by
    rw [handleSelectAll_eq_map s hnd, h]; rfl
  have hiff : handleSelectAll s = uniformSelection true ↔
      (JsObject.values s).all (fun b => b) = false := by
    rw [hres]
    constructor
    · intro e
      have := uniformSelection_injective _ _ e
      simpa using this
    · intro e; rw [e]; rfl
  have hlen : (mapped s).length < 8 ↔ (JsObject.values s).all (fun b => b) = false := by
    rw [mapped_length s hnd, all_false_iff_count_lt, length_values_of_keys s h]
  refine ⟨fun hm => ?_, hiff.trans hlen.symm, hiff⟩
  apply (hiff.trans hlen.symm).2
  rw [hm]; decide

/-- C4 (amended), at the initial all-false selection. -/
theorem active_empty_imp_selectAll_true_witness :
    JsObject.keys initialSelectedFields = fieldKeys ∧
    (mapped initialSelectedFields = [] →
      handleSelectAll initialSelectedFields = uniformSelection true) :=
  ⟨by decide, (active_empty_imp_selectAll_true initialSelectedFields (by decide)).1⟩

/-- C5: on every field selection over the eight fixed keys, the active-category list has as
many entries as there are true flags; each entry is the `FIELD_MAP` category of a key whose
flag is true and belongs to the fixed enumeration; and no category occurs twice. -/
theorem active_categories_sound (s : JsObject Bool) (h : JsObject.keys s = fieldKeys) :
    (mapped s).length = (JsObject.values s).count true ∧
    (∀ c ∈ mapped s, ∃ k cat, c = some cat ∧ k ∈ fieldKeys ∧
        JsObject.get s k = some true ∧ JsObject.get FIELD_MAP k = some cat ∧
        cat ∈ categoryEnumeration) ∧
    (mapped s).Nodup := by
  have hnd : (JsObject.keys s).Nodup := h ▸ fieldKeys_nodup
  refine ⟨mapped_length s hnd, ?_, ?_⟩
  · intro c hc
    simp only [mapped, List.mem_map, List.mem_filter] at hc
    obtain ⟨k, ⟨hk, ht⟩, rfl⟩ := hc
    rw [h] at hk
    obtain ⟨cat, hcat, hmem⟩ := FIELD_MAP_get_mem k hk
    exact ⟨k, cat, hcat, hk, JsObject.get_of_truthy s k ht, hcat, hmem⟩
  · unfold mapped
    apply List.Nodup.map_on
    · intro a ha b hb hab
      have ha' : a ∈ fieldKeys := h ▸ (List.mem_filter.1 ha).1
      have hb' : b ∈ fieldKeys := h ▸ (List.mem_filter.1 hb).1
      exact FIELD_MAP_injOn_fieldKeys a ha' b hb' hab
    · exact hnd.filter _

/-- C5, at the selection in which only "nric" and "mcr" are checked. -/
theorem active_categories_sound_witness :
    JsObject.keys (handleFieldToggle "mcr" (handleFieldToggle "nric" initialSelectedFields))
      = fieldKeys ∧
    (mapped (handleFieldToggle "mcr" (handleFieldToggle "nric" initialSelectedFields))).length
      = (JsObject.values
          (handleFieldToggle "mcr" (handleFieldToggle "nric" initialSelectedFields))).count
            true :=
  ⟨by decide, (active_categories_sound _ (by decide)).1⟩

/-- C6: for every field selection `s` and every key `k` of it, `handleFieldToggle k` returns
a selection in which the flag of `k` is the negation of its flag in `s`, the flag of every
other key is the one it has in `s`, and the keys are those of `s` in the same order; nothing
in this depends on whether all flags of `s` are set. -/
theorem fieldToggle_flips_one (s : JsObject Bool) (k : String)
    (hk : k ∈ JsObject.keys s) :
    (∃ b, JsObject.get s k = some b ∧
        JsObject.get (handleFieldToggle k s) k = some (!b)) ∧
    (∀ k', k' ≠ k → JsObject.get (handleFieldToggle k s) k' = JsObject.get s k') ∧
    JsObject.keys (handleFieldToggle k s) = JsObject.keys s := by
  obtain ⟨b, hb⟩ := JsObject.get_isSome_of_mem s k hk
  refine ⟨⟨b, hb, ?_⟩, fun k' hk' => ?_, ?_⟩
  · unfold handleFieldToggle
    rw [JsObject.get_set_self, hb]; rfl
  · exact JsObject.get_set_other s k k' _ hk'
  · exact JsObject.keys_set_of_mem s k _ hk

/-- C6, at the all-true selection and the key "phone". -/
theorem fieldToggle_flips_one_witness :
    "phone" ∈ JsObject.keys (uniformSelection true) ∧
    JsObject.keys (handleFieldToggle "phone" (uniformSelection true))
      = JsObject.keys (uniformSelection true) :=
  ⟨by decide, (fieldToggle_flips_one (uniformSelection true) "phone" (by decide)).2.2⟩

/-! ## Document lifecycle: lemmas on `handleRedact` -/

theorem handleRedactStart_state (s : ToolState) : (handleRedactStart s).state = s := by
  unfold handleRedactStart
  cases s.file with
  | none => rfl
  | some f =>
      by_cases hm : (mapped s.selectedFields).length = 0 <;> simp [hm]

theorem handleRedactStart_requests (s : ToolState) (r : RedactRequest)
    (h : r ∈ (handleRedactStart s).requests) :
    s.file = some r.file ∧ r.categories = mapped s.selectedFields ∧ r.categories ≠ [] := by
  unfold handleRedactStart at h
  cases hf : s.file with
  | none => simp [hf] at h
  | some f =>
      by_cases hm : (mapped s.selectedFields).length = 0
      · simp [hf, hm] at h
      · simp only [hf, hm, if_false, List.mem_singleton] at h
        subst h
        exact ⟨rfl, rfl, fun e => hm (by simpa using e)⟩

theorem handleRedactResume_of_success (s : ToolState) (res : FetchResult) (blob : Blob)
    (h : FetchResult.success res = some blob) :
    handleRedactResume s res
      = { state := { s with redactedUrl := Url.ofBlob blob, showRedacted := true },
          alerts := ["✔ Redaction completed!"], requests := [] } := by
  cases res with
  | failed => simp [FetchResult.success] at h
  | response ok body =>
      cases ok <;> cases body <;> simp [FetchResult.success] at h
      subst h; rfl

theorem handleRedactResume_of_failure (s : ToolState) (res : FetchResult)
    (h : FetchResult.success res = none) :
    handleRedactResume s res
      = { state := s, alerts := ["Redaction failed. Check backend logs."],
          requests := [] } := by
  cases res with
  | failed => rfl
  | response ok body =>
      cases ok <;> cases body <;> first | rfl | simp [FetchResult.success] at h

/-- When every flag is `false`, no key passes the truthiness test. -/
theorem truthy_get_of_all_false (s : JsObject Bool)
    (h : ∀ b ∈ JsObject.values s, b = false) (k : String) :
    truthy (JsObject.get s k) = false := by
  induction s with
  | nil => rfl
  | cons p rest ih =>
      obtain ⟨k', v⟩ := p
      have hv : v = false := h v (by simp [JsObject.values])
      have hrest : ∀ b ∈ JsObject.values rest, b = false := fun b hb =>
        h b (by simp only [JsObject.values, List.map_cons, List.mem_cons]
                exact Or.inr (by simpa [JsObject.values] using hb))
      by_cases hk : k' = k
      · simp [JsObject.get, hk, truthy, hv]
      · simpa [JsObject.get, hk] using ih hrest

theorem mapped_of_all_false (s : JsObject Bool)
    (h : ∀ b ∈ JsObject.values s, b = false) : mapped s = [] := by
  unfold mapped
  rw [List.map_eq_nil_iff, List.filter_eq_nil_iff]
  intro k _
  simp [truthy_get_of_all_false s h k]

/-! ## Document lifecycle: theorems -/

/-- C7: from every state and for every file `f`, `handleFileUpload` with `f` selected yields
a state whose file is `f`, whose preview reference is the object URL of `f`, whose
redacted-result reference is empty and whose display mode is "original", with the field
selection unchanged; hence when `f2` is uploaded after `f1`, even if a redacted result was
installed for `f1` in between, the state holds no redacted result any more. -/
theorem upload_resets_result (s : ToolState) (f : File) :
    (handleFileUpload (some f) s).file = some f ∧
    (handleFileUpload (some f) s).previewUrl = Url.ofFile f ∧
    (handleFileUpload (some f) s).redactedUrl = Url.empty ∧
    (handleFileUpload (some f) s).showRedacted = false ∧
    (handleFileUpload (some f) s).selectedFields = s.selectedFields ∧
    ∀ (f1 : File) (blob : Blob),
      handleFileUpload (some f)
          (handleRedactResume (handleFileUpload (some f1) s)
            (FetchResult.response true (some blob))).state
        = { file := some f, previewUrl := Url.ofFile f, redactedUrl := Url.empty,
            showRedacted := false, selectedFields := s.selectedFields } :=
  ⟨rfl, rfl, rfl, rfl, rfl, fun _ _ => rfl⟩

/-- C8: in every state in which no document is loaded or no field flag is true, the
synchronous part of `handleRedact` shows a validation message ("Upload a file first." when
no document is loaded, else "Select at least one field."), hands no request to `fetch` and
returns the state, field selection included, as it was; the whole handler then does
nothing more, whatever the service would answer. -/
theorem redact_rejected_without_request (s : ToolState)
    (service : RedactRequest → FetchResult)
    (h : s.file = none ∨ ∀ b ∈ JsObject.values s.selectedFields, b = false) :
    (handleRedactStart s).requests = [] ∧
    (handleRedactStart s).state = s ∧
    ((s.file = none ∧ (handleRedactStart s).alerts = ["Upload a file first."]) ∨
      (s.file ≠ none ∧ (handleRedactStart s).alerts = ["Select at least one field."])) ∧
    handleRedact s service = handleRedactStart s := by
  have hreq : (handleRedactStart s).requests = [] := by
    unfold handleRedactStart
    cases hf : s.file with
    | none => rfl
    | some f =>
        rcases h with h | h
        · simp [hf] at h
        · simp [mapped_of_all_false _ h]
  refine ⟨hreq, handleRedactStart_state s, ?_, ?_⟩
  · unfold handleRedactStart
    cases hf : s.file with
    | none => exact Or.inl ⟨rfl, rfl⟩
    | some f =>
        rcases h with h | h
        · simp [hf] at h
        · exact Or.inr ⟨by simp, by simp [mapped_of_all_false _ h]⟩
  · unfold handleRedact
    simp [hreq]

/-- C8, at the freshly mounted tool: no document and no field selected. -/
theorem redact_rejected_without_request_witness :
    (ToolState.initial.file = none ∨
      ∀ b ∈ JsObject.values ToolState.initial.selectedFields, b = false) ∧
    (handleRedactStart ToolState.initial).requests = [] :=
  ⟨Or.inl rfl,
    (redact_rejected_without_request ToolState.initial (fun _ => FetchResult.failed)
      (Or.inl rfl)).1⟩

/-- C9: in every state with a loaded document and at least one true flag among the eight
fixed keys, when the fetch fails, or the response is not ok, or its body cannot be read,
`handleRedact` posts the request and returns the state exactly as it was (file, preview
reference, redacted-result reference, display mode) with the alert "Redaction failed.
Check backend logs."; the continuation leaves any state it resumes on unchanged in these
cases, and changes the redacted-result reference and the display mode only when the
response is ok and its body is read. -/
theorem redact_failure_keeps_state (s : ToolState) (f : File) (res : FetchResult)
    (hf : s.file = some f)
    (hkeys : JsObject.keys s.selectedFields = fieldKeys)
    (hsel : true ∈ JsObject.values s.selectedFields)
    (hres : res = FetchResult.failed ∨ (∃ body, res = FetchResult.response false body) ∨
      res = FetchResult.response true none) :
    handleRedact s (fun _ => res)
      = { state := s, alerts := ["Redaction failed. Check backend logs."],
          requests := [{ file := f, categories := mapped s.selectedFields }] } ∧
    (∀ t : ToolState, (handleRedactResume t res).state = t) ∧
    (∀ (t : ToolState) (res' : FetchResult),
        (handleRedactResume t res').state ≠ t →
          ∃ blob, res' = FetchResult.response true (some blob)) := by
  have hnone : FetchResult.success res = none := by
    rcases hres with rfl | ⟨body, rfl⟩ | rfl <;> rfl
  have hnd : (JsObject.keys s.selectedFields).Nodup := hkeys ▸ fieldKeys_nodup
  have hlen : ¬ (mapped s.selectedFields).length = 0 := by
    rw [mapped_length _ hnd]
    exact Nat.pos_iff_ne_zero.1 (List.count_pos_iff.2 hsel)
  have hstart : handleRedactStart s
      = { state := s, alerts := [],
          requests := [{ file := f, categories := mapped s.selectedFields }] } := by
    unfold handleRedactStart
    simp [hf, hlen]
  refine ⟨?_, fun t => ?_, fun t res' hne => ?_⟩
  · unfold handleRedact
    simp [hstart, handleRedactResume_of_failure s res hnone]
  · rw [handleRedactResume_of_failure t res hnone]
  · cases hs : FetchResult.success res' with
    | none => exact absurd (by rw [handleRedactResume_of_failure t res' hs]) hne
    | some blob =>
        refine ⟨blob, ?_⟩
        cases res' with
        | failed => simp [FetchResult.success] at hs
        | response ok body =>
            cases ok <;> cases body <;> simp [FetchResult.success] at hs
            subst hs; rfl

/-- C9, at the state after uploading "contract.pdf" and checking "email", with a response
that is not ok. -/
theorem redact_failure_keeps_state_witness :
    (handleFileUpload (some ⟨1, "contract.pdf", [37, 80]⟩)
        { ToolState.initial with
          selectedFields := handleFieldToggle "email" initialSelectedFields }).file
      = some ⟨1, "contract.pdf", [37, 80]⟩ ∧
    handleRedact
        (handleFileUpload (some ⟨1, "contract.pdf", [37, 80]⟩)
          { ToolState.initial with
            selectedFields := handleFieldToggle "email" initialSelectedFields })
        (fun _ => FetchResult.response false none)
      = { state := handleFileUpload (some ⟨1, "contract.pdf", [37, 80]⟩)
            { ToolState.initial with
              selectedFields := handleFieldToggle "email" initialSelectedFields },
          alerts := ["Redaction failed. Check backend logs."],
          requests := [{ file := ⟨1, "contract.pdf", [37, 80]⟩,
                         categories := mapped (handleFieldToggle "email"
                           initialSelectedFields) }] } :=
  ⟨rfl,
    (redact_failure_keeps_state _ ⟨1, "contract.pdf", [37, 80]⟩
      (FetchResult.response false none) rfl (by decide) (by decide)
      (Or.inr (Or.inl ⟨none, rfl⟩))).1⟩

/-! ## The tool with redaction calls in flight: invariants -/

theorem Provenance.mono {s : Sys} {U V : List File} (h : Provenance s U)
    (hsub : ∀ f ∈ U, f ∈ V) : Provenance s V :=
  { empty_iff := h.empty_iff
    holds := h.holds
    current := fun f hf => hsub f (h.current f hf)
    pending := fun r hr => ⟨hsub _ (h.pending r hr).1, (h.pending r hr).2⟩
    installed := fun r blob hr =>
      ⟨hsub _ (h.installed r blob hr).1, (h.installed r blob hr).2⟩ }

theorem provenance_initial : Provenance Sys.initial [] :=
  { empty_iff := by simp [Sys.initial, ToolState.initial]
    holds := by simp [Sys.initial]
    current := by simp [Sys.initial, ToolState.initial]
    pending := by simp [Sys.initial]
    installed := by simp [Sys.initial] }

theorem provenance_step (s : Sys) (U : List File) (e : Event) (h : Provenance s U) :
    Provenance (step s e) (U ++ uploadedFiles [e]) := by
  cases e with
  | upload f =>
      have h' := h.mono (V := U ++ [f]) (fun g hg => List.mem_append_left _ hg)
      exact
        { empty_iff := by simp [step, handleFileUpload]
          holds := by simp [step]
          current := by
            intro g hg
            simp only [step, handleFileUpload, Option.some.injEq] at hg
            simp [uploadedFiles, hg.symm]
          pending := fun r hr => h'.pending r (by simpa [step] using hr)
          installed := by simp [step] }
  | fieldToggle key =>
      have h' : Provenance s (U ++ uploadedFiles [Event.fieldToggle key]) := by
        simpa [uploadedFiles] using h
      by_cases hk : key ∈ JsObject.keys s.ui.selectedFields
      · simp only [step, hk, if_true]
        exact ⟨h'.empty_iff, h'.holds, h'.current, h'.pending, h'.installed⟩
      · simpa [step, hk] using h'
  | selectAll =>
      have h' : Provenance s (U ++ uploadedFiles [Event.selectAll]) := by
        simpa [uploadedFiles] using h
      exact ⟨h'.empty_iff, h'.holds, h'.current, h'.pending, h'.installed⟩
  | redact =>
      have h' : Provenance s (U ++ uploadedFiles [Event.redact]) := by
        simpa [uploadedFiles] using h
      refine ⟨?_, ?_, ?_, ?_, h'.installed⟩
      · simpa [step, handleRedactStart_state] using h'.empty_iff
      · simpa [step, handleRedactStart_state] using h'.holds
      · simpa [step, handleRedactStart_state] using h'.current
      · intro r hr
        simp only [step, List.mem_append] at hr
        rcases hr with hr | hr
        · exact h'.pending r hr
        · obtain ⟨hfile, _, hcat⟩ := handleRedactStart_requests s.ui r hr
          exact ⟨h'.current _ hfile, hcat⟩
  | toggleDisplay =>
      have h' : Provenance s (U ++ uploadedFiles [Event.toggleDisplay]) := by
        simpa [uploadedFiles] using h
      by_cases hu : s.ui.redactedUrl = Url.empty
      · simpa [step, hu] using h'
      · simp only [step, hu, if_false]
        exact ⟨h'.empty_iff, h'.holds, h'.current, h'.pending, h'.installed⟩
  | response req res =>
      have h' : Provenance s (U ++ uploadedFiles [Event.response req res]) := by
        simpa [uploadedFiles] using h
      by_cases hin : req ∈ s.inFlight
      · simp only [step, hin, if_true]
        have hpend : ∀ r ∈ s.inFlight.erase req,
            r.file ∈ U ++ uploadedFiles [Event.response req res] ∧ r.categories ≠ [] :=
          fun r hr => h'.pending r (List.mem_of_mem_erase hr)
        cases hs : FetchResult.success res with
        | none =>
            rw [handleRedactResume_of_failure s.ui res hs]
            exact ⟨h'.empty_iff, h'.holds, h'.current, hpend, h'.installed⟩
        | some blob =>
            rw [handleRedactResume_of_success s.ui res blob hs]
            refine ⟨by simp, ?_, h'.current, hpend, ?_⟩
            · intro r b hr
              simp only [Option.some.injEq, Prod.mk.injEq] at hr
              simp [hr.2]
            · intro r b hr
              simp only [Option.some.injEq, Prod.mk.injEq] at hr
              rw [← hr.1]
              exact h'.pending _ hin
      · simpa [step, hin] using h'

theorem uploadedFiles_cons (e : Event) (evs : List Event) :
    uploadedFiles (e :: evs) = uploadedFiles [e] ++ uploadedFiles evs := by
  cases e <;> simp [uploadedFiles]

theorem provenance_run (evs : List Event) :
    ∀ (s : Sys) (U : List File), Provenance s U →
      Provenance (run s evs) (U ++ uploadedFiles evs) := by
  induction evs with
  | nil => intro s U h; simpa [run, uploadedFiles] using h
  | cons e evs ih =>
      intro s U h
      have := ih (step s e) _ (provenance_step s U e h)
      rw [uploadedFiles_cons, ← List.append_assoc]
      simpa [run] using this

theorem fresh_step (s : Sys) (e : Event) (h : Fresh s) (hne : staleResponse s e = false) :
    Fresh (step s e) := by
  cases e with
  | upload f => intro r blob hr; simp [step] at hr
  | fieldToggle key =>
      by_cases hk : key ∈ JsObject.keys s.ui.selectedFields
      · simpa [step, hk, Fresh] using h
      · simpa [step, hk] using h
  | selectAll => simpa [step, Fresh] using h
  | redact => simpa [step, Fresh, handleRedactStart_state] using h
  | toggleDisplay =>
      by_cases hu : s.ui.redactedUrl = Url.empty
      · simpa [step, hu] using h
      · simpa [step, hu, Fresh] using h
  | response req res =>
      by_cases hin : req ∈ s.inFlight
      · cases hs : FetchResult.success res with
        | none =>
            simp only [step, hin, if_true, hs, handleRedactResume_of_failure s.ui res hs]
            exact h
        | some blob =>
            have hcur : s.ui.file = some req.file := by
              simpa [staleResponse, hin, hs] using hne
            simp only [step, hin, if_true, hs, handleRedactResume_of_success s.ui res blob hs]
            intro r b hr
            simp only [Option.some.injEq, Prod.mk.injEq] at hr
            rw [← hr.1]
            exact hcur
      · simpa [step, hin] using h

theorem fresh_run (evs : List Event) :
    ∀ s : Sys, Fresh s → noStaleResponse s evs = true → Fresh (run s evs) := by
  induction evs with
  | nil => intro s h _; simpa [run] using h
  | cons e evs ih =>
      intro s h hns
      simp only [noStaleResponse, Bool.and_eq_true, Bool.not_eq_true'] at hns
      have := ih (step s e) (fresh_step s e h hns.1) hns.2
      simpa [run] using this

/-- Whatever the order of arrival, a non-empty redacted-result reference is the object URL
of the body of a successful response to a request that `handleRedact` issued, with a
non-empty category list, for a document that was uploaded. -/
theorem result_comes_from_issued_request (evs : List Event)
    (hne : (run Sys.initial evs).ui.redactedUrl ≠ Url.empty) :
    ∃ r blob, (run Sys.initial evs).origin = some (r, blob) ∧
      (run Sys.initial evs).ui.redactedUrl = Url.ofBlob blob ∧
      r.file ∈ uploadedFiles evs ∧ r.categories ≠ [] := by
  have hprov : Provenance (run Sys.initial evs) (uploadedFiles evs) := by
    simpa using provenance_run evs Sys.initial [] provenance_initial
  cases ho : (run Sys.initial evs).origin with
  | none => exact absurd (hprov.empty_iff.2 ho) hne
  | some p =>
      obtain ⟨r, blob⟩ := p
      exact ⟨r, blob, rfl, hprov.holds r blob ho, hprov.installed r blob ho⟩

/-- When no successful response arrives stale, the document invariant holds: the sibling
path, on which the result is handled while its document is still the current one, does
what the stale path misses. -/
theorem timely_responses_keep_document_invariant (evs : List Event)
    (h : noStaleResponse Sys.initial evs = true) :
    DocumentInvariant (run Sys.initial evs) := by
  have hfresh : Fresh (run Sys.initial evs) :=
    fresh_run evs Sys.initial (by intro r blob hr; simp [Sys.initial] at hr) h
  intro hne
  obtain ⟨r, blob, ho, hurl, _⟩ := result_comes_from_issued_request evs hne
  exact ⟨r, blob, ho, hurl, hfresh r blob ho⟩

/-- The timely scenario: the request for the first document is answered while that document
is still the current one, the result is installed and the invariant holds. -/
theorem timely_responses_keep_document_invariant_witness :
    noStaleResponse Sys.initial timelyTrace = true ∧
    (run Sys.initial timelyTrace).ui.redactedUrl = Url.ofBlob exampleBlob ∧
    DocumentInvariant (run Sys.initial timelyTrace) :=
  ⟨by decide, by decide, timely_responses_keep_document_invariant timelyTrace (by decide)⟩

/-! ## The tool with redaction calls in flight: theorems -/

/-- C2 (the code breaks the claim, evaluated at the failing input): upload the first
document, check "name", click "Redact", upload the second document, and then the first
request is answered with success. Every event is enabled, and the continuation of
`handleRedact` installs the body of the response to the first document's request and
switches the display to redacted while the current document is the second one: the
document invariant fails in this reachable state. Right after the second upload, before
the response arrives, the reference is empty and the display mode is "original". -/
theorem stale_response_installs_result :
    (run Sys.initial staleTrace).ui.file = some exampleFile2 ∧
    (run Sys.initial staleTrace).ui.previewUrl = Url.ofFile exampleFile2 ∧
    (run Sys.initial staleTrace).ui.redactedUrl = Url.ofBlob exampleBlob ∧
    (run Sys.initial staleTrace).ui.showRedacted = true ∧
    (run Sys.initial staleTrace).origin
      = some ({ file := exampleFile1, categories := [some "PERSON"] }, exampleBlob) ∧
    (run Sys.initial (staleTrace.take 4)).inFlight
      = [{ file := exampleFile1, categories := [some "PERSON"] }] ∧
    (run Sys.initial (staleTrace.take 4)).ui.redactedUrl = Url.empty ∧
    (run Sys.initial (staleTrace.take 4)).ui.showRedacted = false ∧
    exampleFile1 ≠ exampleFile2 ∧
    ¬ DocumentInvariant (run Sys.initial staleTrace) := by
  have hrun : run Sys.initial staleTrace
      = { ui := { file := some exampleFile2, previewUrl := Url.ofFile exampleFile2,
                  redactedUrl := Url.ofBlob exampleBlob, showRedacted := true,
                  selectedFields := handleFieldToggle "name" initialSelectedFields },
          inFlight := [],
          origin := some ({ file := exampleFile1, categories := [some "PERSON"] },
            exampleBlob) } := by
    decide
  refine ⟨by rw [hrun], by rw [hrun], by rw [hrun], by rw [hrun], by rw [hrun],
    by decide, by decide, by decide, by decide, ?_⟩
  rw [hrun]
  intro h
  obtain ⟨r, blob, hr, _, hfile⟩ := h (by simp)
  simp only [Option.some.injEq, Prod.mk.injEq] at hr hfile
  rw [← hr.1] at hfile
  exact absurd hfile (by decide)

/-! ## Logs view: theorems -/

theorem verifyLog_lookup (logs : List LogEntry) (id i : Nat) :
    (verifyLog logs id).logs[i]?
      = (logs[i]?).map
          (fun l => if l.id = id then { l with status := "Verified" } else l) := by
  simp [verifyLog, List.getElem?_map]

/-- C11: for every list of log entries and every id, `verifyLog` returns, before the POST
is answered, a list of the same length in which each entry keeps its id, user, document,
fields and date; the entries with that id have status "Verified" and every other entry is
unchanged, so an entry that was "Verified" stays "Verified" and none becomes "Pending";
a second `verifyLog` with the same id changes nothing, and neither does a rejected POST.
On the fallback dataset with id 1 the first entry becomes "Verified" and the second call
is a no-op. -/
theorem verifyLog_marks_verified (logs : List LogEntry) (id : Nat) :
    (verifyLog logs id).logs.length = logs.length ∧
    (∀ (i : Nat) (l l' : LogEntry), logs[i]? = some l →
        (verifyLog logs id).logs[i]? = some l' →
        l'.id = l.id ∧ l'.user = l.user ∧ l'.doc = l.doc ∧ l'.fields = l.fields ∧
        l'.date = l.date ∧
        (l.id = id → l'.status = "Verified") ∧
        (l.id ≠ id → l' = l) ∧
        (l.status = "Verified" → l'.status = "Verified") ∧
        (l'.status = "Pending" → l.status = "Pending")) ∧
    (verifyLog (verifyLog logs id).logs id).logs = (verifyLog logs id).logs ∧
    (verifyLogRejected (verifyLog logs id).logs).1 = (verifyLog logs id).logs ∧
    (verifyLog logs id).posts = [id] ∧
    (verifyLog degradedLogs 1).logs
      = [ { id := 1, user := "Hridaya", doc := "CaseStudy.pdf", fields := ["Name", "Phone"],
            date := "2025-11-10", status := "Verified" },
          { id := 2, user := "Anita", doc := "Report.docx", fields := ["Address"],
            date := "2025-11-09", status := "Verified" } ] ∧
    (verifyLog (verifyLog degradedLogs 1).logs 1).logs = (verifyLog degradedLogs 1).logs := by
  refine ⟨by simp [verifyLog], ?_, ?_, rfl, rfl, by decide, by decide⟩
  · intro i l l' hl hl'
    rw [verifyLog_lookup, hl] at hl'
    simp only [Option.map_some', Option.some.injEq] at hl'
    by_cases hid : l.id = id
    · rw [if_pos hid] at hl'
      subst hl'
      refine ⟨rfl, rfl, rfl, rfl, rfl, fun _ => rfl, fun hne => absurd hid hne,
        fun _ => rfl, fun hp => ?_⟩
      have hne : ("Verified" : String) ≠ "Pending" := by decide
      exact absurd hp hne
    · rw [if_neg hid] at hl'
      subst hl'
      exact ⟨rfl, rfl, rfl, rfl, rfl, fun h => absurd h hid, fun _ => rfl,
        fun h => h, fun h => h⟩
  · simp only [verifyLog, List.map_map]
    apply List.map_congr_left
    intro l _
    by_cases hid : l.id = id <;> simp [hid]

/-! ## Export: theorems -/

theorem loaded_step (s : Sys) (e : Event) (h : Loaded s) : Loaded (step s e) := by
  cases e with
  | upload f => exact ⟨fun _ => by simp [step, handleFileUpload],
      fun _ => by simp [step, handleFileUpload]⟩
  | fieldToggle key =>
      by_cases hk : key ∈ JsObject.keys s.ui.selectedFields
      · simpa [step, hk, Loaded] using h
      · simpa [step, hk] using h
  | selectAll => simpa [step, Loaded] using h
  | redact =>
      refine ⟨fun hne => ?_, ?_⟩
      · simp only [step, handleRedactStart_state]
        by_cases hin : s.inFlight = []
        · cases hr : (handleRedactStart s.ui).requests with
          | nil => simp [step, hin, hr] at hne
          | cons r rs =>
              have := (handleRedactStart_requests s.ui r (by simp [hr])).1
              simp [this]
        · exact h.1 hin
      · simpa [step, handleRedactStart_state] using h.2
  | toggleDisplay =>
      by_cases hu : s.ui.redactedUrl = Url.empty
      · simpa [step, hu] using h
      · simpa [step, hu, Loaded] using h
  | response req res =>
      by_cases hin : req ∈ s.inFlight
      · have hfile : s.ui.file ≠ none := h.1 (List.ne_nil_of_mem hin)
        cases hs : FetchResult.success res with
        | none =>
            simp only [step, hin, if_true, handleRedactResume_of_failure s.ui res hs]
            exact ⟨fun _ => hfile, fun _ => hfile⟩
        | some blob =>
            simp only [step, hin, if_true, handleRedactResume_of_success s.ui res blob hs]
            exact ⟨fun _ => hfile, fun _ => hfile⟩
      · simpa [step, hin] using h

theorem loaded_run (evs : List Event) : ∀ s : Sys, Loaded s → Loaded (run s evs) := by
  induction evs with
  | nil => intro s h; simpa [run] using h
  | cons e evs ih =>
      intro s h
      simpa [run] using ih (step s e) (loaded_step s e h)

/-- C12: in every state, `handleExport` does nothing when no redacted-result reference is
held, and whenever it clicks a download link a redacted-result reference is held, the link
points to that reference and its download name is "REDACTED_" followed by the name of the
current file; with a file loaded and a result held it does click that link. In the states
reachable from the freshly mounted tool a held result always comes with a loaded file, so
the handler never throws there. After uploading "contract.pdf", checking "name" and
"email" and a successful redaction, the link is named "REDACTED_contract.pdf" and points
to the returned result. -/
theorem export_named_after_file (s : ToolState) :
    (s.redactedUrl = Url.empty → handleExport s = ExportOutcome.nothing) ∧
    (∀ link, handleExport s = ExportOutcome.clicked link →
        s.redactedUrl ≠ Url.empty ∧ link.href = s.redactedUrl ∧
        ∃ f, s.file = some f ∧ link.download = "REDACTED_" ++ f.name) ∧
    (∀ f, s.file = some f → s.redactedUrl ≠ Url.empty →
        handleExport s = ExportOutcome.clicked
          { href := s.redactedUrl, download := "REDACTED_" ++ f.name }) ∧
    (∀ evs : List Event, handleExport (run Sys.initial evs).ui ≠ ExportOutcome.typeError) ∧
    handleExport (run Sys.initial contractTrace).ui
      = ExportOutcome.clicked
          { href := Url.ofBlob exampleBlob, download := "REDACTED_contract.pdf" } := by
  refine ⟨fun h => by simp [handleExport, h], ?_, ?_, ?_, by decide⟩
  · intro link hlink
    unfold handleExport at hlink
    by_cases hu : s.redactedUrl = Url.empty
    · simp [hu] at hlink
    · cases hf : s.file with
      | none => simp [hu, hf] at hlink
      | some f =>
          simp only [hu, hf, if_false, ExportOutcome.clicked.injEq] at hlink
          subst hlink
          exact ⟨hu, rfl, f, rfl, rfl⟩
  · intro f hf hu
    simp [handleExport, hf, hu]
  · intro evs
    have hl : Loaded (run Sys.initial evs) :=
      loaded_run evs Sys.initial
        ⟨fun h => absurd rfl h, fun h => absurd rfl h⟩
    unfold handleExport
    by_cases hu : (run Sys.initial evs).ui.redactedUrl = Url.empty
    · simp [hu]
    · cases hf : (run Sys.initial evs).ui.file with
      | none => exact absurd hf (hl.2 hu)
      | some f => simp [hu]

end JustRedact
